import Mathlib

/-!
Verification of the shape-abstraction and convex-support-point core of the
`parry` collision library (`src/shape/shape.rs` and
`src/transformation/convex_hull_utils.rs`).

The scalar type `Real` of the crate is modelled by `ℚ` (the build fixes the
single-precision float; we use exact rationals so every comparison and
arithmetic step of the algorithms is mirrored exactly, with the float
sentinel `Real::MAX` embedded as the exact value of `f32::MAX`).  The
in-place normalisation routine, whose diagonal is a Euclidean distance,
is modelled over `ℝ` at the end of the file because it genuinely needs a
square root.
-/

namespace Parry

/-- Exact value of `f32::MAX`, i.e. `(2 - 2⁻²³) · 2¹²⁷ = 2¹²⁸ - 2¹⁰⁴`.
The crate's scalar `Real` is the single-precision float in this build
(the `math` module fixing it is outside the two source files), so
`Real::MAX` is this same value. -/
def f32MAX : ℚ := 2 ^ 128 - 2 ^ 104

/-- `Real::MAX = Bounded::max_value()` for the crate scalar `Real`.
Modelled from the spec: `Real` is the single-precision scalar of the
build, so its maximum representable value is `f32MAX`. -/
def RealMAX : ℚ := f32MAX

/-- A 3-dimensional vector over the (exact) scalar. Models both
`na::Vector3<Real>` and `na::Point3<Real>` (their coordinates). -/
structure Vec3 where
  x : ℚ
  y : ℚ
  z : ℚ
deriving DecidableEq, Repr

namespace Vec3

/-- Componentwise addition. -/
def add (v w : Vec3) : Vec3 := ⟨v.x + w.x, v.y + w.y, v.z + w.z⟩

/-- Componentwise subtraction. -/
def sub (v w : Vec3) : Vec3 := ⟨v.x - w.x, v.y - w.y, v.z - w.z⟩

/-- Componentwise negation. -/
def neg (v : Vec3) : Vec3 := ⟨-v.x, -v.y, -v.z⟩

/-- Scalar multiplication. -/
def smul (a : ℚ) (v : Vec3) : Vec3 := ⟨a * v.x, a * v.y, a * v.z⟩

/-- Division of every component by a scalar. -/
def sdiv (v : Vec3) (a : ℚ) : Vec3 := ⟨v.x / a, v.y / a, v.z / a⟩

/-- The constant vector with all components equal to `a`
(`Vector::repeat(a)`). -/
def cst (a : ℚ) : Vec3 := ⟨a, a, a⟩

/-- Componentwise minimum (`inf`). -/
def cmin (v w : Vec3) : Vec3 := ⟨min v.x w.x, min v.y w.y, min v.z w.z⟩

/-- Componentwise maximum (`sup`). -/
def cmax (v w : Vec3) : Vec3 := ⟨max v.x w.x, max v.y w.y, max v.z w.z⟩

/-- Componentwise absolute value. -/
def cabs (v : Vec3) : Vec3 := ⟨|v.x|, |v.y|, |v.z|⟩

/-- Euclidean dot product, `direction.dot(&pt.coords)`. -/
def dot (v w : Vec3) : ℚ := v.x * w.x + v.y * w.y + v.z * w.z

/-- The smallest component, `v.min()` of nalgebra. -/
def minComp (v : Vec3) : ℚ := min v.x (min v.y v.z)

/-- The origin / zero vector. -/
def zero : Vec3 := ⟨0, 0, 0⟩

end Vec3

/-- A 3×3 matrix over the scalar, stored by rows; models the rotation part
of an `Isometry<Real>`. -/
structure Mat3 where
  r0 : Vec3
  r1 : Vec3
  r2 : Vec3
deriving DecidableEq, Repr

namespace Mat3

/-- Matrix–vector product. -/
def mulVec (m : Mat3) (v : Vec3) : Vec3 :=
  ⟨Vec3.dot m.r0 v, Vec3.dot m.r1 v, Vec3.dot m.r2 v⟩

/-- Componentwise absolute value of the matrix. -/
def cabs (m : Mat3) : Mat3 := ⟨m.r0.cabs, m.r1.cabs, m.r2.cabs⟩

/-- The identity matrix. -/
def id3 : Mat3 := ⟨⟨1, 0, 0⟩, ⟨0, 1, 0⟩, ⟨0, 0, 1⟩⟩

end Mat3

/-- A rigid transform `Isometry<Real>`: a rotation followed by a
translation. -/
structure Isometry where
  rot : Mat3
  trans : Vec3
deriving DecidableEq, Repr

namespace Isometry

/-- Apply the isometry to a point. -/
def apply (iso : Isometry) (p : Vec3) : Vec3 :=
  Vec3.add (iso.rot.mulVec p) iso.trans

/-- The identity transform. -/
def identity : Isometry := ⟨Mat3.id3, Vec3.zero⟩

end Isometry

theorem Mat3.id3_mulVec (v : Vec3) : Mat3.id3.mulVec v = v := by
  cases v
  simp [Mat3.mulVec, Mat3.id3, Vec3.dot]

theorem Isometry.identity_apply (p : Vec3) : Isometry.identity.apply p = p := by
  cases p
  simp [Isometry.apply, Isometry.identity, Mat3.id3_mulVec, Vec3.add, Vec3.zero]

/-! ## `src/transformation/convex_hull_utils.rs` -/

/-- The scan loop of `support_point_id`: iterate over the points with a
running index `id`, recording the index whenever the dot product strictly
exceeds the running maximum `m` (initialised to `-Real::MAX`). -/
def support_point_loop (direction : Vec3) :
    List Vec3 → ℕ → Option ℕ → ℚ → Option ℕ
  | [], _, argmax, _ => argmax
  | pt :: rest, id, argmax, m =>
    if direction.dot pt > m then
      support_point_loop direction rest (id + 1) (some id) (direction.dot pt)
    else
      support_point_loop direction rest (id + 1) argmax m

/-- `support_point_id`: index of the support point of a list of points. -/
def support_point_id (direction : Vec3) (points : List Vec3) : Option ℕ :=
  support_point_loop direction points 0 none (-RealMAX)

/-- The scan loop of `indexed_support_point_id`, iterating over the index
list `idx`.  Out-of-range indices are modelled by `getD` with the origin
as default (the Rust code would panic there; no claim exercises it). -/
def indexed_support_point_loop (direction : Vec3) (points : List Vec3) :
    List ℕ → Option ℕ → ℚ → Option ℕ
  | [], argmax, _ => argmax
  | i :: rest, argmax, m =>
    if direction.dot (points.getD i Vec3.zero) > m then
      indexed_support_point_loop direction points rest (some i)
        (direction.dot (points.getD i Vec3.zero))
    else
      indexed_support_point_loop direction points rest argmax m

/-- `indexed_support_point_id`: original index (into `points`) of the
support point among the indices `idx`. -/
def indexed_support_point_id (direction : Vec3) (points : List Vec3)
    (idx : List ℕ) : Option ℕ :=
  indexed_support_point_loop direction points idx none (-RealMAX)

/-- The scan loop of `indexed_support_point_nth`, iterating over
`idx.enumerate()` with position counter `k` and recording the position. -/
def indexed_support_point_nth_loop (direction : Vec3) (points : List Vec3) :
    List ℕ → ℕ → Option ℕ → ℚ → Option ℕ
  | [], _, argmax, _ => argmax
  | i :: rest, k, argmax, m =>
    if direction.dot (points.getD i Vec3.zero) > m then
      indexed_support_point_nth_loop direction points rest (k + 1) (some k)
        (direction.dot (points.getD i Vec3.zero))
    else
      indexed_support_point_nth_loop direction points rest (k + 1) argmax m

/-- `indexed_support_point_nth`: the number `n` such that
`points[idx.nth(n)]` is the support point. -/
def indexed_support_point_nth (direction : Vec3) (points : List Vec3)
    (idx : List ℕ) : Option ℕ :=
  indexed_support_point_nth_loop direction points idx 0 none (-RealMAX)

/-! ### Specification machinery for the three scan loops

All three loops are instances of one generic scan over a list of
`(recorded value, dot product)` pairs; we characterise that scan through
`best_spec`, the first pair attaining the maximal dot product. -/

/-- Generic running-maximum scan: record `p.1` whenever `p.2` strictly
exceeds the running maximum `m`. -/
def gen_loop : List (ℕ × ℚ) → Option ℕ → ℚ → Option ℕ
  | [], argmax, _ => argmax
  | p :: rest, argmax, m =>
    if p.2 > m then gen_loop rest (some p.1) p.2 else gen_loop rest argmax m

/-- The first pair of the list attaining the maximal second component. -/
def best_spec : List (ℕ × ℚ) → Option (ℕ × ℚ)
  | [] => none
  | p :: ps =>
    match best_spec ps with
    | none => some p
    | some q => if p.2 ≥ q.2 then some p else some q

/-- Closed form of the generic scan's final result. -/
def gen_result (l : List (ℕ × ℚ)) (a : Option ℕ) (m : ℚ) : Option ℕ :=
  match best_spec l with
  | none => a
  | some q => if q.2 > m then some q.1 else a

theorem gen_loop_eq (l : List (ℕ × ℚ)) (a : Option ℕ) (m : ℚ) :
    gen_loop l a m = gen_result l a m := by
  induction l generalizing a m with
  | nil => rfl
  | cons p ps ih =>
    simp only [gen_loop, gen_result, best_spec]
    rcases hb : best_spec ps with _ | q
    · by_cases h : p.2 > m
      · simp [h, ih, gen_result, hb]
      · simp [h, ih, gen_result, hb]
    · by_cases h : p.2 > m
      · by_cases h2 : p.2 ≥ q.2
        · have hq : ¬ q.2 > p.2 := not_lt.mpr h2
          simp [h, h2, ih, gen_result, hb, hq]
        · have hq : q.2 > p.2 := lt_of_not_ge h2
          simp [h, h2, ih, gen_result, hb, hq, lt_trans h hq]
      · by_cases h2 : p.2 ≥ q.2
        · have hm : ¬ q.2 > m := not_lt.mpr (le_trans h2 (not_lt.mp h))
          simp [h, h2, ih, gen_result, hb, hm]
        · simp [h, h2, ih, gen_result, hb]

theorem best_spec_eq_none {l : List (ℕ × ℚ)} :
    best_spec l = none ↔ l = [] := by
  cases l with
  | nil => simp [best_spec]
  | cons p ps =>
    simp only [best_spec]
    rcases best_spec ps with _ | q
    · simp
    · by_cases h : p.2 ≥ q.2 <;> simp [h]

theorem best_spec_mem {l : List (ℕ × ℚ)} {q : ℕ × ℚ}
    (h : best_spec l = some q) : q ∈ l := by
  induction l generalizing q with
  | nil => simp [best_spec] at h
  | cons p ps ih =>
    simp only [best_spec] at h
    rcases hb : best_spec ps with _ | r <;> rw [hb] at h
    · simp at h
      simp [h]
    · by_cases h2 : p.2 ≥ r.2 <;> simp [h2] at h
      · simp [h]
      · exact List.mem_cons_of_mem _ (ih (h ▸ hb))

theorem best_spec_all_le {l : List (ℕ × ℚ)} {q : ℕ × ℚ}
    (h : best_spec l = some q) : ∀ r ∈ l, r.2 ≤ q.2 := by
  induction l generalizing q with
  | nil => simp
  | cons p ps ih =>
    simp only [best_spec] at h
    rcases hb : best_spec ps with _ | r <;> rw [hb] at h
    · have : ps = [] := best_spec_eq_none.mp hb
      subst this
      simp at h
      simp [h]
    · by_cases h2 : p.2 ≥ r.2 <;> simp [h2] at h <;> subst h
      · intro s hs
        rcases List.mem_cons.mp hs with h3 | h3
        · exact h3 ▸ le_refl _
        · exact le_trans (ih hb s h3) h2
      · intro s hs
        rcases List.mem_cons.mp hs with h3 | h3
        · exact h3 ▸ le_of_lt (lt_of_not_ge h2)
        · exact ih hb s h3

theorem best_spec_first_argmax {l : List (ℕ × ℚ)} {q : ℕ × ℚ}
    (h : best_spec l = some q) :
    ∃ i, i < l.length ∧ l.getD i (0, 0) = q ∧
      (∀ j, j < i → (l.getD j (0, 0)).2 < q.2) ∧
      (∀ j, j < l.length → (l.getD j (0, 0)).2 ≤ q.2) := by
  induction l generalizing q with
  | nil => simp [best_spec] at h
  | cons p ps ih =>
    simp only [best_spec] at h
    rcases hb : best_spec ps with _ | r <;> rw [hb] at h
    · have hps : ps = [] := best_spec_eq_none.mp hb
      subst hps
      simp at h
      subst h
      refine ⟨0, by simp, by simp, by omega, ?_⟩
      intro j hj
      cases j with
      | zero => simp
      | succ j' => simp at hj
    · by_cases h2 : p.2 ≥ r.2 <;> simp [h2] at h <;> subst h
      · refine ⟨0, by simp, by simp, by omega, ?_⟩
        intro j hj
        cases j with
        | zero => simp
        | succ j' =>
          simp only [List.getD_cons_succ]
          have hj' : j' < ps.length := by simpa using hj
          have hle : ps.getD j' (0, 0) ∈ ps := by
            rw [List.getD_eq_getElem _ _ hj']
            exact List.getElem_mem hj'
          exact le_trans (best_spec_all_le hb _ hle) h2
      · obtain ⟨i, hi, hget, hstrict, hall⟩ := ih hb
        refine ⟨i + 1, by simpa using hi, by simpa using hget, ?_, ?_⟩
        · intro j hj
          cases j with
          | zero => simpa using lt_of_not_ge h2
          | succ j' =>
            simp only [List.getD_cons_succ]
            exact hstrict j' (by omega)
        · intro j hj
          cases j with
          | zero => simpa using le_of_lt (lt_of_not_ge h2)
          | succ j' =>
            simp only [List.getD_cons_succ]
            exact hall j' (by simpa using hj)

/-- `best_spec` only compares second components, so re-recording the
first components commutes with it. -/
theorem best_spec_map_fst (g : ℕ → ℕ) (l : List (ℕ × ℚ)) :
    best_spec (l.map (fun r => (g r.1, r.2)))
      = (best_spec l).map (fun r => (g r.1, r.2)) := by
  induction l with
  | nil => rfl
  | cons p ps ih =>
    simp only [List.map_cons, best_spec, ih]
    rcases best_spec ps with _ | r
    · rfl
    · by_cases h : p.2 ≥ r.2 <;> simp [h]

theorem getD_map_of_lt {α β : Type} (f : α → β) (l : List α) {j : ℕ}
    (hj : j < l.length) (d : β) (d' : α) :
    (l.map f).getD j d = f (l.getD j d') := by
  induction l generalizing j with
  | nil => simp at hj
  | cons a as ih =>
    cases j with
    | zero => simp
    | succ j' =>
      simp only [List.map_cons, List.getD_cons_succ]
      exact ih (by simpa using hj)

theorem enumFrom_getD {α : Type} (l : List α) (n j : ℕ)
    (hj : j < l.length) (d : α) :
    (List.enumFrom n l).getD j (0, d) = (n + j, l.getD j d) := by
  induction l generalizing n j with
  | nil => simp at hj
  | cons a as ih =>
    cases j with
    | zero => simp [List.enumFrom]
    | succ j' =>
      simp only [List.enumFrom, List.getD_cons_succ]
      rw [ih (n + 1) j' (by simpa using hj)]
      have harith : n + 1 + j' = n + (j' + 1) := by omega
      rw [harith]

theorem enumFrom_snd_mem {α : Type} :
    ∀ (l : List α) (n : ℕ) (pr : ℕ × α), pr ∈ List.enumFrom n l → pr.2 ∈ l := by
  intro l
  induction l with
  | nil => intro n pr h; simp [List.enumFrom] at h
  | cons a as ih =>
    intro n pr h
    simp only [List.enumFrom, List.mem_cons] at h
    rcases h with h | h
    · subst h; simp
    · exact List.mem_cons_of_mem _ (ih (n + 1) pr h)

theorem mem_enumFrom_self {α : Type} :
    ∀ (l : List α) (n : ℕ) (p : α), p ∈ l → ∃ k, (k, p) ∈ List.enumFrom n l := by
  intro l
  induction l with
  | nil => intro n p h; simp at h
  | cons a as ih =>
    intro n p h
    rcases List.mem_cons.mp h with h | h
    · exact ⟨n, by simp [List.enumFrom, h]⟩
    · obtain ⟨k, hk⟩ := ih (n + 1) p h
      exact ⟨k, by simp [List.enumFrom]; right; exact hk⟩

/-! ### Bridges from the three source loops to the generic scan -/

theorem support_point_loop_eq (direction : Vec3) (l : List Vec3)
    (id : ℕ) (a : Option ℕ) (m : ℚ) :
    support_point_loop direction l id a m
      = gen_loop ((List.enumFrom id l).map
          (fun pr => (pr.1, direction.dot pr.2))) a m := by
  induction l generalizing id a m with
  | nil => rfl
  | cons pt rest ih =>
    simp only [support_point_loop, List.enumFrom, List.map_cons, gen_loop]
    by_cases h : direction.dot pt > m <;> simp [h, ih]

theorem indexed_loop_eq (direction : Vec3) (points : List Vec3)
    (l : List ℕ) (a : Option ℕ) (m : ℚ) :
    indexed_support_point_loop direction points l a m
      = gen_loop (l.map
          (fun i => (i, direction.dot (points.getD i Vec3.zero)))) a m := by
  induction l generalizing a m with
  | nil => rfl
  | cons i rest ih =>
    simp only [indexed_support_point_loop, List.map_cons, gen_loop]
    by_cases h : direction.dot (points.getD i Vec3.zero) > m <;> simp [h, ih]

theorem indexed_nth_loop_eq (direction : Vec3) (points : List Vec3)
    (l : List ℕ) (k : ℕ) (a : Option ℕ) (m : ℚ) :
    indexed_support_point_nth_loop direction points l k a m
      = gen_loop ((List.enumFrom k l).map
          (fun pr => (pr.1, direction.dot (points.getD pr.2 Vec3.zero)))) a m := by
  induction l generalizing k a m with
  | nil => rfl
  | cons i rest ih =>
    simp only [indexed_support_point_nth_loop, List.enumFrom, List.map_cons, gen_loop]
    by_cases h : direction.dot (points.getD i Vec3.zero) > m <;> simp [h, ih]

/-- The pair list scanned by `indexed_support_point_id` is the pair list
scanned by `indexed_support_point_nth` with every recorded position
re-recorded as the original index it points to. -/
theorem map_pair_eq_enum_map (dA : ℕ → ℚ) :
    ∀ (l : List ℕ) (n : ℕ) (G : ℕ → ℕ),
      (∀ k, k < l.length → G (n + k) = l.getD k 0) →
      l.map (fun i => (i, dA i))
        = ((List.enumFrom n l).map (fun pr => (pr.1, dA pr.2))).map
            (fun r => (G r.1, r.2)) := by
  intro l
  induction l with
  | nil => intro n G _; rfl
  | cons i rest ih =>
    intro n G h
    have h0 : G n = i := by
      have := h 0 (by simp)
      simpa using this
    simp only [List.map_cons, List.enumFrom, h0]
    refine congrArg _ ?_
    refine ih (n + 1) G ?_
    intro k hk
    have := h (k + 1) (by simp; omega)
    rw [show n + 1 + k = n + (k + 1) by omega]
    simpa using this

theorem gen_loop_none_iff (l : List (ℕ × ℚ)) (m : ℚ) :
    gen_loop l none m = none ↔ ∀ r ∈ l, r.2 ≤ m := by
  rw [gen_loop_eq]
  unfold gen_result
  rcases hb : best_spec l with _ | q
  · have : l = [] := best_spec_eq_none.mp hb
    subst this
    simp
  · by_cases h : q.2 > m
    · simp only [h, if_pos]
      constructor
      · intro hx; exact absurd hx (by simp)
      · intro hall
        exact absurd (hall q (best_spec_mem hb)) (not_le.mpr h)
    · simp only [h, if_neg]
      constructor
      · intro _ r hr
        exact le_trans (best_spec_all_le hb r hr) (not_lt.mp h)
      · intro _; simp

/-! ### Characterisations of the three public scan functions -/

theorem support_point_id_eq_none_iff (direction : Vec3) (points : List Vec3) :
    support_point_id direction points = none
      ↔ ∀ p ∈ points, direction.dot p ≤ -RealMAX := by
  unfold support_point_id
  rw [support_point_loop_eq, gen_loop_none_iff]
  constructor
  · intro h p hp
    obtain ⟨k, hk⟩ := mem_enumFrom_self points 0 p hp
    have := h ((k, p).1, direction.dot (k, p).2) (List.mem_map_of_mem _ hk)
    simpa using this
  · intro h r hr
    obtain ⟨pr, hpr, rfl⟩ := List.mem_map.mp hr
    exact h pr.2 (enumFrom_snd_mem points 0 pr hpr)

theorem indexed_support_point_id_eq_none_iff (direction : Vec3)
    (points : List Vec3) (idx : List ℕ) :
    indexed_support_point_id direction points idx = none
      ↔ ∀ i ∈ idx, direction.dot (points.getD i Vec3.zero) ≤ -RealMAX := by
  unfold indexed_support_point_id
  rw [indexed_loop_eq, gen_loop_none_iff]
  constructor
  · intro h i hi
    have := h (i, direction.dot (points.getD i Vec3.zero))
      (List.mem_map_of_mem _ hi)
    simpa using this
  · intro h r hr
    obtain ⟨i, hi, rfl⟩ := List.mem_map.mp hr
    exact h i hi

theorem indexed_support_point_nth_eq_none_iff (direction : Vec3)
    (points : List Vec3) (idx : List ℕ) :
    indexed_support_point_nth direction points idx = none
      ↔ ∀ i ∈ idx, direction.dot (points.getD i Vec3.zero) ≤ -RealMAX := by
  unfold indexed_support_point_nth
  rw [indexed_nth_loop_eq, gen_loop_none_iff]
  constructor
  · intro h i hi
    obtain ⟨k, hk⟩ := mem_enumFrom_self idx 0 i hi
    have := h ((k, i).1, direction.dot (points.getD (k, i).2 Vec3.zero))
      (List.mem_map_of_mem _ hk)
    simpa using this
  · intro h r hr
    obtain ⟨pr, hpr, rfl⟩ := List.mem_map.mp hr
    exact h pr.2 (enumFrom_snd_mem idx 0 pr hpr)

theorem support_point_id_some_spec (direction : Vec3) (points : List Vec3)
    (i : ℕ) (h : support_point_id direction points = some i) :
    i < points.length
    ∧ -RealMAX < direction.dot (points.getD i Vec3.zero)
    ∧ (∀ j, j < points.length →
        direction.dot (points.getD j Vec3.zero)
          ≤ direction.dot (points.getD i Vec3.zero))
    ∧ (∀ j, j < i →
        direction.dot (points.getD j Vec3.zero)
          < direction.dot (points.getD i Vec3.zero)) := by
  unfold support_point_id at h
  rw [support_point_loop_eq, gen_loop_eq] at h
  unfold gen_result at h
  rcases hb : best_spec ((List.enumFrom 0 points).map
      (fun pr => (pr.1, direction.dot pr.2))) with _ | q <;> rw [hb] at h
  · simp at h
  · by_cases hm : q.2 > -RealMAX
    · simp only [hm, if_pos, Option.some.injEq] at h
      obtain ⟨i0, hlen, hget, hstrict, hall⟩ := best_spec_first_argmax hb
      have hplen : ((List.enumFrom 0 points).map
          (fun pr => (pr.1, direction.dot pr.2))).length = points.length := by
        simp
      have hgetD : ∀ j, j < points.length →
          ((List.enumFrom 0 points).map
            (fun pr => (pr.1, direction.dot pr.2))).getD j (0, 0)
            = (j, direction.dot (points.getD j Vec3.zero)) := by
        intro j hj
        rw [getD_map_of_lt _ _ (by simpa using hj) (0, 0) (0, Vec3.zero)]
        rw [enumFrom_getD points 0 j hj Vec3.zero]
        simp
      rw [hplen] at hlen hall
      rw [hgetD i0 hlen] at hget
      have hi0 : i0 = i := by
        rw [← h]
        exact congrArg Prod.fst hget
      subst hi0
      have hq2 : direction.dot (points.getD i0 Vec3.zero) = q.2 :=
        congrArg Prod.snd hget
      refine ⟨hlen, by rw [hq2]; exact hm, ?_, ?_⟩
      · intro j hj
        have h5 := hall j hj
        rw [hgetD j hj] at h5
        rw [hq2]
        exact h5
      · intro j hj
        have h5 := hstrict j hj
        rw [hgetD j (lt_trans hj hlen)] at h5
        rw [hq2]
        exact h5
    · simp [hm] at h

theorem indexed_id_eq_nth_map (direction : Vec3) (points : List Vec3)
    (idx : List ℕ) :
    indexed_support_point_id direction points idx
      = (indexed_support_point_nth direction points idx).map
          (fun k => idx.getD k 0) := by
  unfold indexed_support_point_id indexed_support_point_nth
  rw [indexed_loop_eq, indexed_nth_loop_eq, gen_loop_eq, gen_loop_eq]
  unfold gen_result
  have hAB := map_pair_eq_enum_map
    (fun i => direction.dot (points.getD i Vec3.zero)) idx 0
    (fun k => idx.getD k 0) (by intro k hk; simp)
  beta_reduce at hAB
  rw [hAB, best_spec_map_fst (fun k => idx.getD k 0)
    (List.map (fun pr => (pr.1, direction.dot (points.getD pr.2 Vec3.zero)))
      (List.enumFrom 0 idx))]
  generalize best_spec
      (List.map (fun pr => (pr.1, direction.dot (points.getD pr.2 Vec3.zero)))
        (List.enumFrom 0 idx)) = ob
  rcases ob with _ | r
  · rfl
  · by_cases hm : r.2 > -RealMAX <;> simp [hm]

theorem indexed_nth_some_spec (direction : Vec3) (points : List Vec3)
    (idx : List ℕ) (k : ℕ)
    (h : indexed_support_point_nth direction points idx = some k) :
    k < idx.length
    ∧ (∀ j, j < idx.length →
        direction.dot (points.getD (idx.getD j 0) Vec3.zero)
          ≤ direction.dot (points.getD (idx.getD k 0) Vec3.zero))
    ∧ (∀ j, j < k →
        direction.dot (points.getD (idx.getD j 0) Vec3.zero)
          < direction.dot (points.getD (idx.getD k 0) Vec3.zero)) := by
  unfold indexed_support_point_nth at h
  rw [indexed_nth_loop_eq, gen_loop_eq] at h
  unfold gen_result at h
  rcases hb : best_spec ((List.enumFrom 0 idx).map
      (fun pr => (pr.1, direction.dot (points.getD pr.2 Vec3.zero))))
    with _ | q <;> rw [hb] at h
  · simp at h
  · by_cases hm : q.2 > -RealMAX
    · simp only [hm, if_pos, Option.some.injEq] at h
      obtain ⟨k0, hlen, hget, hstrict, hall⟩ := best_spec_first_argmax hb
      have hplen : ((List.enumFrom 0 idx).map
          (fun pr => (pr.1, direction.dot (points.getD pr.2 Vec3.zero)))).length
            = idx.length := by simp
      have hgetD : ∀ j, j < idx.length →
          ((List.enumFrom 0 idx).map
            (fun pr => (pr.1, direction.dot (points.getD pr.2 Vec3.zero)))).getD
              j (0, 0)
            = (j, direction.dot (points.getD (idx.getD j 0) Vec3.zero)) := by
        intro j hj
        rw [getD_map_of_lt _ _ (by simpa using hj) (0, 0) (0, 0)]
        rw [enumFrom_getD idx 0 j hj 0]
        simp
      rw [hplen] at hlen hall
      rw [hgetD k0 hlen] at hget
      have hk0 : k0 = k := by
        rw [← h]
        exact congrArg Prod.fst hget
      subst hk0
      have hq2 : direction.dot (points.getD (idx.getD k0 0) Vec3.zero) = q.2 :=
        congrArg Prod.snd hget
      refine ⟨hlen, ?_, ?_⟩
      · intro j hj
        have h5 := hall j hj
        rw [hgetD j hj] at h5
        rw [hq2]
        exact h5
      · intro j hj
        have h5 := hstrict j hj
        rw [hgetD j (lt_trans hj hlen)] at h5
        rw [hq2]
        exact h5
    · simp [hm] at h

/-! ### Claim theorems for the support-point functions -/

/-- C3 (amended): `support_point_id` returns the index of the point whose
dot product with the direction is maximal, with ties broken by first
occurrence (strict `>`), provided at least one dot product exceeds the
`-Real::MAX` sentinel; it returns `none` exactly when every dot product is
at most `-Real::MAX` — in particular for the empty sequence, never a crash
or default index.  For direction `(1,0,0)` and points
`[(0,0,0), (2,0,0), (1,5,0)]` it returns index `1`. -/
theorem c3_support_point_id_argmax :
    (∀ (direction : Vec3) (points : List Vec3),
      support_point_id direction points = none
        ↔ ∀ p ∈ points, direction.dot p ≤ -RealMAX)
    ∧ (∀ (direction : Vec3) (points : List Vec3) (i : ℕ),
        support_point_id direction points = some i →
          i < points.length
          ∧ -RealMAX < direction.dot (points.getD i Vec3.zero)
          ∧ (∀ j, j < points.length →
              direction.dot (points.getD j Vec3.zero)
                ≤ direction.dot (points.getD i Vec3.zero))
          ∧ (∀ j, j < i →
              direction.dot (points.getD j Vec3.zero)
                < direction.dot (points.getD i Vec3.zero)))
    ∧ support_point_id ⟨1, 0, 0⟩ [⟨0, 0, 0⟩, ⟨2, 0, 0⟩, ⟨1, 5, 0⟩] = some 1 := by
  refine ⟨support_point_id_eq_none_iff, support_point_id_some_spec, ?_⟩
  simp only [support_point_id, support_point_loop, Vec3.dot, RealMAX, f32MAX]
  norm_num

/-- C3 counterexample to the claim as stated: a nonempty point sequence on
which `support_point_id` returns `none` instead of the index of the
maximal-dot point (here index 0), because the single dot product equals
the `-Real::MAX` sentinel exactly. -/
theorem c3_counterexample :
    support_point_id ⟨-RealMAX, 0, 0⟩ [⟨1, 0, 0⟩] = none
    ∧ ([⟨1, 0, 0⟩] : List Vec3) ≠ [] := by
  constructor
  · simp only [support_point_id, support_point_loop, Vec3.dot, RealMAX, f32MAX]
    norm_num
  · simp

/-- Witness for C3: the amended theorem applied at the concrete example. -/
theorem c3_witness :
    1 < ([⟨0, 0, 0⟩, ⟨2, 0, 0⟩, ⟨1, 5, 0⟩] : List Vec3).length
    ∧ -RealMAX < Vec3.dot ⟨1, 0, 0⟩
        (([⟨0, 0, 0⟩, ⟨2, 0, 0⟩, ⟨1, 5, 0⟩] : List Vec3).getD 1 Vec3.zero) := by
  have h := c3_support_point_id_argmax.2.1 ⟨1, 0, 0⟩
    [⟨0, 0, 0⟩, ⟨2, 0, 0⟩, ⟨1, 5, 0⟩] 1
    (by simp only [support_point_id, support_point_loop, Vec3.dot, RealMAX, f32MAX]
        norm_num)
  exact ⟨h.1, h.2.1⟩

/-- C4 (amended): on the same direction, point array, and index sequence,
the two results are always `Option.map`-related and are `none` together
exactly when no scanned dot product exceeds the `-Real::MAX` sentinel;
whenever at least one scanned dot product strictly exceeds the sentinel,
`indexed_support_point_nth` returns the 0-based rank `k` of the first
dot-product maximizer among the supplied indices while
`indexed_support_point_id` returns that same winner's original index
`idx[k]`.  For direction `(1,0,0)`, points `[(0,0,0), (2,0,0), (1,5,0)]`,
indices `[0,2]`, the former returns `1` and the latter returns `2`. -/
theorem c4_indexed_support_point_pair :
    (∀ (direction : Vec3) (points : List Vec3) (idx : List ℕ),
      indexed_support_point_id direction points idx
        = (indexed_support_point_nth direction points idx).map
            (fun k => idx.getD k 0))
    ∧ (∀ (direction : Vec3) (points : List Vec3) (idx : List ℕ),
        (indexed_support_point_nth direction points idx = none
          ↔ ∀ i ∈ idx, direction.dot (points.getD i Vec3.zero) ≤ -RealMAX)
        ∧ (indexed_support_point_id direction points idx = none
          ↔ ∀ i ∈ idx, direction.dot (points.getD i Vec3.zero) ≤ -RealMAX))
    ∧ (∀ (direction : Vec3) (points : List Vec3) (idx : List ℕ),
        (∃ i ∈ idx, -RealMAX < direction.dot (points.getD i Vec3.zero)) →
          ∃ k, indexed_support_point_nth direction points idx = some k
          ∧ k < idx.length
          ∧ indexed_support_point_id direction points idx
              = some (idx.getD k 0)
          ∧ (∀ j, j < idx.length →
              direction.dot (points.getD (idx.getD j 0) Vec3.zero)
                ≤ direction.dot (points.getD (idx.getD k 0) Vec3.zero))
          ∧ (∀ j, j < k →
              direction.dot (points.getD (idx.getD j 0) Vec3.zero)
                < direction.dot (points.getD (idx.getD k 0) Vec3.zero)))
    ∧ (∀ (direction : Vec3) (points : List Vec3) (idx : List ℕ) (k : ℕ),
        indexed_support_point_nth direction points idx = some k →
          k < idx.length
          ∧ indexed_support_point_id direction points idx
              = some (idx.getD k 0)
          ∧ (∀ j, j < idx.length →
              direction.dot (points.getD (idx.getD j 0) Vec3.zero)
                ≤ direction.dot (points.getD (idx.getD k 0) Vec3.zero))
          ∧ (∀ j, j < k →
              direction.dot (points.getD (idx.getD j 0) Vec3.zero)
                < direction.dot (points.getD (idx.getD k 0) Vec3.zero)))
    ∧ indexed_support_point_id ⟨1, 0, 0⟩ [⟨0, 0, 0⟩, ⟨2, 0, 0⟩, ⟨1, 5, 0⟩]
        [0, 2] = some 2
    ∧ indexed_support_point_nth ⟨1, 0, 0⟩ [⟨0, 0, 0⟩, ⟨2, 0, 0⟩, ⟨1, 5, 0⟩]
        [0, 2] = some 1 := by
  have hsome : ∀ (direction : Vec3) (points : List Vec3) (idx : List ℕ) (k : ℕ),
      indexed_support_point_nth direction points idx = some k →
        k < idx.length
        ∧ indexed_support_point_id direction points idx = some (idx.getD k 0)
        ∧ (∀ j, j < idx.length →
            direction.dot (points.getD (idx.getD j 0) Vec3.zero)
              ≤ direction.dot (points.getD (idx.getD k 0) Vec3.zero))
        ∧ (∀ j, j < k →
            direction.dot (points.getD (idx.getD j 0) Vec3.zero)
              < direction.dot (points.getD (idx.getD k 0) Vec3.zero)) := by
    intro direction points idx k h
    have h1 := indexed_nth_some_spec direction points idx k h
    refine ⟨h1.1, ?_, h1.2.1, h1.2.2⟩
    rw [indexed_id_eq_nth_map, h]
    rfl
  refine ⟨indexed_id_eq_nth_map, ?_, ?_, hsome, ?_, ?_⟩
  · intro direction points idx
    exact ⟨indexed_support_point_nth_eq_none_iff direction points idx,
      indexed_support_point_id_eq_none_iff direction points idx⟩
  · intro direction points idx hguard
    rcases hk : indexed_support_point_nth direction points idx with _ | k
    · obtain ⟨i, hi, hdot⟩ := hguard
      have hall := (indexed_support_point_nth_eq_none_iff direction points idx).mp hk
      exact absurd (hall i hi) (not_le.mpr hdot)
    · exact ⟨k, rfl, hsome direction points idx k hk⟩
  · simp only [indexed_support_point_id, indexed_support_point_loop, Vec3.dot,
      RealMAX, f32MAX, List.getD, Vec3.zero]
    norm_num
  · simp only [indexed_support_point_nth, indexed_support_point_nth_loop, Vec3.dot,
      RealMAX, f32MAX, List.getD, Vec3.zero]
    norm_num

/-- C4 counterexample to the claim as stated: a nonempty index sequence on
which both variants return `none` instead of the maximizer (original index
`0`, rank `0`), because the single dot product equals the `-Real::MAX`
sentinel exactly. -/
theorem c4_counterexample :
    indexed_support_point_id ⟨RealMAX, 0, 0⟩ [⟨-1, 0, 0⟩] [0] = none
    ∧ indexed_support_point_nth ⟨RealMAX, 0, 0⟩ [⟨-1, 0, 0⟩] [0] = none
    ∧ ([0] : List ℕ) ≠ [] := by
  refine ⟨?_, ?_, by simp⟩
  · simp only [indexed_support_point_id, indexed_support_point_loop, Vec3.dot,
      RealMAX, f32MAX, List.getD, Vec3.zero]
    norm_num
  · simp only [indexed_support_point_nth, indexed_support_point_nth_loop, Vec3.dot,
      RealMAX, f32MAX, List.getD, Vec3.zero]
    norm_num

/-- Witness for C4: the amended theorem's sentinel guard discharged at the
concrete example, yielding the rank/original-index pair. -/
theorem c4_witness :
    (∃ i ∈ ([0, 2] : List ℕ),
      -RealMAX < Vec3.dot ⟨1, 0, 0⟩
        (([⟨0, 0, 0⟩, ⟨2, 0, 0⟩, ⟨1, 5, 0⟩] : List Vec3).getD i Vec3.zero))
    ∧ ∃ k, indexed_support_point_nth ⟨1, 0, 0⟩
          [⟨0, 0, 0⟩, ⟨2, 0, 0⟩, ⟨1, 5, 0⟩] [0, 2] = some k
        ∧ k < ([0, 2] : List ℕ).length
        ∧ indexed_support_point_id ⟨1, 0, 0⟩
            [⟨0, 0, 0⟩, ⟨2, 0, 0⟩, ⟨1, 5, 0⟩] [0, 2]
            = some (([0, 2] : List ℕ).getD k 0)
        ∧ (∀ j, j < ([0, 2] : List ℕ).length →
            Vec3.dot ⟨1, 0, 0⟩
              (([⟨0, 0, 0⟩, ⟨2, 0, 0⟩, ⟨1, 5, 0⟩] : List Vec3).getD
                (([0, 2] : List ℕ).getD j 0) Vec3.zero)
              ≤ Vec3.dot ⟨1, 0, 0⟩
                  (([⟨0, 0, 0⟩, ⟨2, 0, 0⟩, ⟨1, 5, 0⟩] : List Vec3).getD
                    (([0, 2] : List ℕ).getD k 0) Vec3.zero))
        ∧ (∀ j, j < k →
            Vec3.dot ⟨1, 0, 0⟩
              (([⟨0, 0, 0⟩, ⟨2, 0, 0⟩, ⟨1, 5, 0⟩] : List Vec3).getD
                (([0, 2] : List ℕ).getD j 0) Vec3.zero)
              < Vec3.dot ⟨1, 0, 0⟩
                  (([⟨0, 0, 0⟩, ⟨2, 0, 0⟩, ⟨1, 5, 0⟩] : List Vec3).getD
                    (([0, 2] : List ℕ).getD k 0) Vec3.zero)) := by
  have hg : ∃ i ∈ ([0, 2] : List ℕ),
      -RealMAX < Vec3.dot ⟨1, 0, 0⟩
        (([⟨0, 0, 0⟩, ⟨2, 0, 0⟩, ⟨1, 5, 0⟩] : List Vec3).getD i Vec3.zero) := by
    refine ⟨2, by simp, ?_⟩
    simp only [List.getD, Vec3.dot, Vec3.zero, RealMAX, f32MAX]
    norm_num
  exact ⟨hg, c4_indexed_support_point_pair.2.2.1 ⟨1, 0, 0⟩
    [⟨0, 0, 0⟩, ⟨2, 0, 0⟩, ⟨1, 5, 0⟩] [0, 2] hg⟩

/-- C10: each of the three scan functions returns `some` exactly when at
least one scanned dot product strictly exceeds the `-Real::MAX` sentinel;
consequently a nonempty point sequence can yield `none` (here the single
dot product equals `-Real::MAX` exactly), not only the empty sequence. -/
theorem c10_sentinel_none :
    (∀ (direction : Vec3) (points : List Vec3),
      (support_point_id direction points).isSome = true
        ↔ ∃ p ∈ points, -RealMAX < direction.dot p)
    ∧ (∀ (direction : Vec3) (points : List Vec3) (idx : List ℕ),
      (indexed_support_point_id direction points idx).isSome = true
        ↔ ∃ i ∈ idx, -RealMAX < direction.dot (points.getD i Vec3.zero))
    ∧ (∀ (direction : Vec3) (points : List Vec3) (idx : List ℕ),
      (indexed_support_point_nth direction points idx).isSome = true
        ↔ ∃ i ∈ idx, -RealMAX < direction.dot (points.getD i Vec3.zero))
    ∧ (support_point_id ⟨RealMAX, 0, 0⟩ [⟨-1, 0, 0⟩] = none
        ∧ ([⟨-1, 0, 0⟩] : List Vec3) ≠ []) := by
  refine ⟨?_, ?_, ?_, ?_, by simp⟩
  · intro direction points
    rw [Option.isSome_iff_ne_none, ne_eq, support_point_id_eq_none_iff]
    push_neg
    rfl
  · intro direction points idx
    rw [Option.isSome_iff_ne_none, ne_eq, indexed_support_point_id_eq_none_iff]
    push_neg
    rfl
  · intro direction points idx
    rw [Option.isSome_iff_ne_none, ne_eq, indexed_support_point_nth_eq_none_iff]
    push_neg
    rfl
  · simp only [support_point_id, support_point_loop, Vec3.dot, RealMAX, f32MAX]
    norm_num

/-! ## `src/shape/shape.rs` -/

/-- Axis-aligned bounding box; the external bounding-volume collaborator. -/
structure AABB where
  mins : Vec3
  maxs : Vec3
deriving DecidableEq, Repr

namespace AABB

/-- Center of the box. -/
def center (a : AABB) : Vec3 := Vec3.smul (1 / 2) (Vec3.add a.mins a.maxs)

/-- Half-extents of the box. -/
def half_extents (a : AABB) : Vec3 := Vec3.smul (1 / 2) (Vec3.sub a.maxs a.mins)

/-- Modelled from the spec: the bounding-volume collaborator's "loosen by
a scalar margin" operation enlarges the box by `amount` in every
direction. -/
def loosened (a : AABB) (amount : ℚ) : AABB :=
  ⟨Vec3.sub a.mins (Vec3.cst amount), Vec3.add a.maxs (Vec3.cst amount)⟩

/-- Modelled from the spec: the bounding-volume collaborator's "transform
by a rigid pose" operation — the box around the transformed center with
half-extents multiplied by the componentwise absolute value of the
rotation (the canonical enclosing box of a rotated box). -/
def transform_by (a : AABB) (pos : Isometry) : AABB :=
  ⟨Vec3.sub (pos.apply a.center) (pos.rot.cabs.mulVec a.half_extents),
   Vec3.add (pos.apply a.center) (pos.rot.cabs.mulVec a.half_extents)⟩

end AABB

theorem AABB.transform_by_identity (a : AABB) :
    a.transform_by Isometry.identity = a := by
  rcases a with ⟨⟨mx, my, mz⟩, ⟨Mx, My, Mz⟩⟩
  simp only [AABB.transform_by, AABB.center, AABB.half_extents,
    Isometry.identity, Isometry.apply, Mat3.id3, Mat3.cabs, Mat3.mulVec,
    Vec3.add, Vec3.sub, Vec3.smul, Vec3.cabs, Vec3.dot, Vec3.zero,
    AABB.mk.injEq, Vec3.mk.injEq]
  norm_num
  refine ⟨⟨?_, ?_, ?_⟩, ?_, ?_, ?_⟩ <;> ring

/-- Modelled from the spec: `bounding_volume::details::local_point_cloud_aabb`,
the axis-aligned bounding box of a point cloud (componentwise min/max
fold; the empty cloud, outside the collaborator's contract, gives the
degenerate box at the origin). -/
def local_point_cloud_aabb : List Vec3 → AABB
  | [] => ⟨Vec3.zero, Vec3.zero⟩
  | p :: ps => ⟨ps.foldl Vec3.cmin p, ps.foldl Vec3.cmax p⟩

/-! ### Concrete shape data types -/

/-- A ball, defined by its radius. -/
structure Ball where
  radius : ℚ

/-- A cuboid, defined by its half-extents. -/
structure Cuboid where
  half_extents : Vec3

/-- A segment, defined by its two endpoints. -/
structure Segment where
  a : Vec3
  b : Vec3

/-- A capsule: a segment inflated by a radius. -/
structure Capsule where
  segment : Segment
  radius : ℚ

/-- A triangle, defined by its three vertices. -/
structure Triangle where
  a : Vec3
  b : Vec3
  c : Vec3

/-- A half-space, defined by its outward unit normal. -/
structure HalfSpace where
  normal : Vec3

/-- A triangle mesh; it stores its precomputed local AABB (the source's
`compute_local_aabb` dereferences the stored `local_aabb`). -/
structure TriMesh where
  vertices : List Vec3
  indices : List (ℕ × ℕ × ℕ)
  loc_aabb : AABB

/-- A polyline; it stores its precomputed local AABB. -/
structure Polyline where
  vertices : List Vec3
  indices : List (ℕ × ℕ)
  loc_aabb : AABB

/-- A heightfield; it stores its precomputed local AABB. -/
structure HeightField where
  heights : List ℚ
  scale : Vec3
  loc_aabb : AABB

/-- A convex polyhedron, defined by its vertices and triangle faces. -/
structure ConvexPolyhedron where
  points : List Vec3
  faces : List (ℕ × ℕ × ℕ)

/-- A cylinder, defined by half-height and radius. -/
structure Cylinder where
  half_height : ℚ
  radius : ℚ

/-- A cone, defined by half-height and radius. -/
structure Cone where
  half_height : ℚ
  radius : ℚ

/-- `RoundShape<S>`: a base shape inflated by a border radius (Minkowski
sum with a ball). -/
structure RoundShape (S : Type) where
  base_shape : S
  border_radius : ℚ

/-! ### Inherent geometry of each shape (external collaborators)

The per-primitive `local_aabb`/`aabb` formulas live in the
`bounding_volume` module, outside the two source files; each is modelled
from the spec ("bounding volume in the shape's own frame; tight for
primitives with closed-form bounds", "`compute_aabb(pose)`:
`compute_local_aabb()` transformed by `pose`; concrete shapes may
override for tighter results"). -/

namespace Ball

/-- Modelled from the spec: tight local AABB of a ball, `[-r, r]` on
every axis. -/
def local_aabb (bl : Ball) : AABB :=
  ⟨Vec3.neg (Vec3.cst bl.radius), Vec3.cst bl.radius⟩

/-- Modelled from the spec: tight AABB of a posed ball, the box of
half-extent `r` around the transformed center. -/
def aabb (bl : Ball) (pos : Isometry) : AABB :=
  ⟨Vec3.sub (pos.apply Vec3.zero) (Vec3.cst bl.radius),
   Vec3.add (pos.apply Vec3.zero) (Vec3.cst bl.radius)⟩

end Ball

namespace Cuboid

/-- Modelled from the spec: tight local AABB of a cuboid,
`[-half_extents, half_extents]`. -/
def local_aabb (c : Cuboid) : AABB :=
  ⟨Vec3.neg c.half_extents, c.half_extents⟩

/-- Modelled from the spec: AABB of a posed cuboid, the local box
transformed by the pose. -/
def aabb (c : Cuboid) (pos : Isometry) : AABB :=
  (local_aabb c).transform_by pos

end Cuboid

namespace Segment

/-- Modelled from the spec: tight local AABB of a segment, the
componentwise min/max of its endpoints. -/
def local_aabb (s : Segment) : AABB :=
  ⟨Vec3.cmin s.a s.b, Vec3.cmax s.a s.b⟩

/-- Modelled from the spec: tight AABB of a posed segment, the
componentwise min/max of the transformed endpoints. -/
def aabb (s : Segment) (pos : Isometry) : AABB :=
  ⟨Vec3.cmin (pos.apply s.a) (pos.apply s.b),
   Vec3.cmax (pos.apply s.a) (pos.apply s.b)⟩

end Segment

namespace Capsule

/-- Modelled from the spec: local AABB of a capsule, the segment's AABB
loosened by the radius. -/
def local_aabb (c : Capsule) : AABB :=
  (c.segment.local_aabb).loosened c.radius

/-- Modelled from the spec: AABB of a posed capsule, the posed segment's
AABB loosened by the radius. -/
def aabb (c : Capsule) (pos : Isometry) : AABB :=
  (c.segment.aabb pos).loosened c.radius

end Capsule

namespace Triangle

/-- Modelled from the spec: tight local AABB of a triangle. -/
def local_aabb (t : Triangle) : AABB :=
  ⟨Vec3.cmin t.a (Vec3.cmin t.b t.c), Vec3.cmax t.a (Vec3.cmax t.b t.c)⟩

/-- Modelled from the spec: tight AABB of a posed triangle. -/
def aabb (t : Triangle) (pos : Isometry) : AABB :=
  ⟨Vec3.cmin (pos.apply t.a) (Vec3.cmin (pos.apply t.b) (pos.apply t.c)),
   Vec3.cmax (pos.apply t.a) (Vec3.cmax (pos.apply t.b) (pos.apply t.c))⟩

end Triangle

namespace HalfSpace

/-- Modelled from the spec: safe over-approximating AABB of an unbounded
half-space — the maximal box, independent of the pose. -/
def local_aabb (_ : HalfSpace) : AABB :=
  ⟨Vec3.neg (Vec3.cst RealMAX), Vec3.cst RealMAX⟩

/-- Modelled from the spec: a posed half-space keeps the maximal box. -/
def aabb (h : HalfSpace) (_ : Isometry) : AABB :=
  local_aabb h

end HalfSpace

namespace ConvexPolyhedron

/-- Modelled from the spec: local AABB of a convex polyhedron, the AABB
of its vertex cloud. -/
def local_aabb (p : ConvexPolyhedron) : AABB :=
  local_point_cloud_aabb p.points

/-- Modelled from the spec: AABB of a posed convex polyhedron, the AABB
of the transformed vertex cloud. -/
def aabb (p : ConvexPolyhedron) (pos : Isometry) : AABB :=
  local_point_cloud_aabb (p.points.map pos.apply)

/-- Modelled from the spec: `to_trimesh` returns the vertex and face
buffers of the polyhedron. -/
def to_trimesh (p : ConvexPolyhedron) : List Vec3 × List (ℕ × ℕ × ℕ) :=
  (p.points, p.faces)

end ConvexPolyhedron

namespace Cylinder

/-- Modelled from the spec: tight local AABB of a cylinder with principal
axis `y`. -/
def local_aabb (c : Cylinder) : AABB :=
  ⟨⟨-c.radius, -c.half_height, -c.radius⟩, ⟨c.radius, c.half_height, c.radius⟩⟩

/-- Modelled from the spec: AABB of a posed cylinder, the local box
transformed by the pose. -/
def aabb (c : Cylinder) (pos : Isometry) : AABB :=
  (local_aabb c).transform_by pos

end Cylinder

namespace Cone

/-- Modelled from the spec: tight local AABB of a cone with principal
axis `y`. -/
def local_aabb (c : Cone) : AABB :=
  ⟨⟨-c.radius, -c.half_height, -c.radius⟩, ⟨c.radius, c.half_height, c.radius⟩⟩

/-- Modelled from the spec: AABB of a posed cone, the local box
transformed by the pose. -/
def aabb (c : Cone) (pos : Isometry) : AABB :=
  (local_aabb c).transform_by pos

end Cone

/-- `ShapeType`: the closed tag enumerating every concrete variant
(3-dimensional build). -/
inductive ShapeType
  | Ball
  | Cuboid
  | Capsule
  | Segment
  | Triangle
  | TriMesh
  | Polyline
  | HalfSpace
  | HeightField
  | Compound
  | ConvexPolyhedron
  | Cylinder
  | Cone
  | RoundCuboid
  | RoundTriangle
  | RoundCylinder
  | RoundCone
  | RoundConvexPolyhedron
deriving DecidableEq, Repr

/-- A value held through the abstract `dyn Shape` handle: one of the
concrete shape types of the 3-dimensional build.  A compound stores its
children (each with a relative pose) together with its precomputed local
AABB. -/
inductive Shape
  | ball (b : Ball)
  | cuboid (c : Cuboid)
  | capsule (c : Capsule)
  | segment (s : Segment)
  | triangle (t : Triangle)
  | trimesh (m : TriMesh)
  | polyline (p : Polyline)
  | halfspace (h : HalfSpace)
  | heightfield (h : HeightField)
  | compound (shapes : List (Isometry × Shape)) (loc_aabb : AABB)
  | convexPolyhedron (p : ConvexPolyhedron)
  | cylinder (c : Cylinder)
  | cone (c : Cone)
  | roundCuboid (s : RoundShape Cuboid)
  | roundTriangle (s : RoundShape Triangle)
  | roundCylinder (s : RoundShape Cylinder)
  | roundCone (s : RoundShape Cone)
  | roundConvexPolyhedron (s : RoundShape ConvexPolyhedron)

/-- Modelled from the spec: the external mass-properties collaborator is
invoked only through its per-primitive constructors and its zero; it is
modelled as the free algebra over exactly those constructor calls. -/
inductive MassProperties
  | zero
  | from_ball (density radius : ℚ)
  | from_cuboid (density : ℚ) (half_extents : Vec3)
  | from_capsule (density : ℚ) (a b : Vec3) (radius : ℚ)
  | from_compound (density : ℚ) (shapes : List (Isometry × Shape))
  | from_convex_polyhedron (density : ℚ) (vertices : List Vec3)
      (indices : List (ℕ × ℕ × ℕ))
  | from_cylinder (density half_height radius : ℚ)
  | from_cone (density half_height radius : ℚ)

/-! ### Trait-method helpers, one per `impl Shape for X` block -/

/-- `<Ball as Shape>::mass_properties`. -/
def Ball.mass_properties (bl : Ball) (density : ℚ) : MassProperties :=
  MassProperties.from_ball density bl.radius

/-- `<Ball as Shape>::ccd_thickness`. -/
def Ball.ccd_thickness (bl : Ball) : ℚ := bl.radius

/-- `<Ball as Shape>::is_convex`. -/
def Ball.is_convex (_ : Ball) : Bool := true

/-- `<Cuboid as Shape>::mass_properties`. -/
def Cuboid.mass_properties (c : Cuboid) (density : ℚ) : MassProperties :=
  MassProperties.from_cuboid density c.half_extents

/-- `<Cuboid as Shape>::ccd_thickness`. -/
def Cuboid.ccd_thickness (c : Cuboid) : ℚ := c.half_extents.minComp

/-- `<Cuboid as Shape>::is_convex`. -/
def Cuboid.is_convex (_ : Cuboid) : Bool := true

/-- `<Triangle as Shape>::mass_properties` (3-D build: zero). -/
def Triangle.mass_properties (_ : Triangle) (_ : ℚ) : MassProperties :=
  MassProperties.zero

/-- `<Triangle as Shape>::ccd_thickness` (the source's `0.0` placeholder). -/
def Triangle.ccd_thickness (_ : Triangle) : ℚ := 0

/-- `<Triangle as Shape>::is_convex`. -/
def Triangle.is_convex (_ : Triangle) : Bool := true

/-- `<Cylinder as Shape>::mass_properties`. -/
def Cylinder.mass_properties (c : Cylinder) (density : ℚ) : MassProperties :=
  MassProperties.from_cylinder density c.half_height c.radius

/-- `<Cylinder as Shape>::ccd_thickness`. -/
def Cylinder.ccd_thickness (c : Cylinder) : ℚ := c.radius

/-- `<Cylinder as Shape>::is_convex`. -/
def Cylinder.is_convex (_ : Cylinder) : Bool := true

/-- `<Cone as Shape>::mass_properties`. -/
def Cone.mass_properties (c : Cone) (density : ℚ) : MassProperties :=
  MassProperties.from_cone density c.half_height c.radius

/-- `<Cone as Shape>::ccd_thickness`. -/
def Cone.ccd_thickness (c : Cone) : ℚ := c.radius

/-- `<Cone as Shape>::is_convex`. -/
def Cone.is_convex (_ : Cone) : Bool := true

/-- `<ConvexPolyhedron as Shape>::mass_properties`: convert to a triangle
mesh first, then invoke the collaborator constructor. -/
def ConvexPolyhedron.mass_properties (p : ConvexPolyhedron) (density : ℚ) :
    MassProperties :=
  MassProperties.from_convex_polyhedron density p.to_trimesh.1 p.to_trimesh.2

/-- `<ConvexPolyhedron as Shape>::ccd_thickness`: smallest half-extent of
the local AABB. -/
def ConvexPolyhedron.ccd_thickness (p : ConvexPolyhedron) : ℚ :=
  (p.local_aabb.half_extents).minComp

/-- `<ConvexPolyhedron as Shape>::is_convex`. -/
def ConvexPolyhedron.is_convex (_ : ConvexPolyhedron) : Bool := true

/-! ### The `dyn Shape` dispatchers -/

/-- `Shape::shape_type`. -/
def shape_type : Shape → ShapeType
  | .ball _ => .Ball
  | .cuboid _ => .Cuboid
  | .capsule _ => .Capsule
  | .segment _ => .Segment
  | .triangle _ => .Triangle
  | .trimesh _ => .TriMesh
  | .polyline _ => .Polyline
  | .halfspace _ => .HalfSpace
  | .heightfield _ => .HeightField
  | .compound _ _ => .Compound
  | .convexPolyhedron _ => .ConvexPolyhedron
  | .cylinder _ => .Cylinder
  | .cone _ => .Cone
  | .roundCuboid _ => .RoundCuboid
  | .roundTriangle _ => .RoundTriangle
  | .roundCylinder _ => .RoundCylinder
  | .roundCone _ => .RoundCone
  | .roundConvexPolyhedron _ => .RoundConvexPolyhedron

/-- `Shape::compute_local_aabb`, per-variant as in the source (composite
shapes dereference their stored AABB; rounded shapes loosen the base's
local AABB by the border radius). -/
def compute_local_aabb : Shape → AABB
  | .ball b => b.local_aabb
  | .cuboid c => c.local_aabb
  | .capsule c => c.local_aabb
  | .segment s => s.local_aabb
  | .triangle t => t.local_aabb
  | .trimesh m => m.loc_aabb
  | .polyline p => p.loc_aabb
  | .halfspace h => h.local_aabb
  | .heightfield h => h.loc_aabb
  | .compound _ la => la
  | .convexPolyhedron p => p.local_aabb
  | .cylinder c => c.local_aabb
  | .cone c => c.local_aabb
  | .roundCuboid s => (s.base_shape.local_aabb).loosened s.border_radius
  | .roundTriangle s => (s.base_shape.local_aabb).loosened s.border_radius
  | .roundCylinder s => (s.base_shape.local_aabb).loosened s.border_radius
  | .roundCone s => (s.base_shape.local_aabb).loosened s.border_radius
  | .roundConvexPolyhedron s => (s.base_shape.local_aabb).loosened s.border_radius

/-- `Shape::compute_aabb`, per-variant as in the source (every concrete
variant overrides the default with its own `aabb`; the compound
transforms its stored local AABB; rounded shapes loosen the base's posed
AABB by the border radius). -/
def compute_aabb : Shape → Isometry → AABB
  | .ball b, pos => b.aabb pos
  | .cuboid c, pos => c.aabb pos
  | .capsule c, pos => c.aabb pos
  | .segment s, pos => s.aabb pos
  | .triangle t, pos => t.aabb pos
  | .trimesh m, pos => m.loc_aabb.transform_by pos
  | .polyline p, pos => p.loc_aabb.transform_by pos
  | .halfspace h, pos => h.aabb pos
  | .heightfield h, pos => h.loc_aabb.transform_by pos
  | .compound _ la, pos => la.transform_by pos
  | .convexPolyhedron p, pos => p.aabb pos
  | .cylinder c, pos => c.aabb pos
  | .cone c, pos => c.aabb pos
  | .roundCuboid s, pos => (s.base_shape.aabb pos).loosened s.border_radius
  | .roundTriangle s, pos => (s.base_shape.aabb pos).loosened s.border_radius
  | .roundCylinder s, pos => (s.base_shape.aabb pos).loosened s.border_radius
  | .roundCone s, pos => (s.base_shape.aabb pos).loosened s.border_radius
  | .roundConvexPolyhedron s, pos =>
      (s.base_shape.aabb pos).loosened s.border_radius

/-- `Shape::mass_properties`, per-variant as in the source (3-D build:
triangles, segments, meshes, polylines, heightfields and half-spaces are
zero; rounded shapes delegate to their base shape unchanged). -/
def mass_properties : Shape → ℚ → MassProperties
  | .ball b, density => b.mass_properties density
  | .cuboid c, density => c.mass_properties density
  | .capsule c, density =>
      MassProperties.from_capsule density c.segment.a c.segment.b c.radius
  | .segment _, _ => MassProperties.zero
  | .triangle t, density => t.mass_properties density
  | .trimesh _, _ => MassProperties.zero
  | .polyline _, _ => MassProperties.zero
  | .halfspace _, _ => MassProperties.zero
  | .heightfield _, _ => MassProperties.zero
  | .compound shapes _, density => MassProperties.from_compound density shapes
  | .convexPolyhedron p, density => p.mass_properties density
  | .cylinder c, density => c.mass_properties density
  | .cone c, density => c.mass_properties density
  | .roundCuboid s, density => s.base_shape.mass_properties density
  | .roundTriangle s, density => s.base_shape.mass_properties density
  | .roundCylinder s, density => s.base_shape.mass_properties density
  | .roundCone s, density => s.base_shape.mass_properties density
  | .roundConvexPolyhedron s, density => s.base_shape.mass_properties density

/-- `Shape::is_convex`: defaults to `false`; convex primitives override
with `true`; rounded shapes delegate to their base shape. -/
def is_convex : Shape → Bool
  | .ball b => b.is_convex
  | .cuboid c => c.is_convex
  | .capsule _ => true
  | .segment _ => true
  | .triangle t => t.is_convex
  | .trimesh _ => false
  | .polyline _ => false
  | .halfspace _ => true
  | .heightfield _ => false
  | .compound _ _ => false
  | .convexPolyhedron p => p.is_convex
  | .cylinder c => c.is_convex
  | .cone c => c.is_convex
  | .roundCuboid s => s.base_shape.is_convex
  | .roundTriangle s => s.base_shape.is_convex
  | .roundCylinder s => s.base_shape.is_convex
  | .roundCone s => s.base_shape.is_convex
  | .roundConvexPolyhedron s => s.base_shape.is_convex

mutual

/-- `Shape::ccd_thickness`, per-variant as in the source; the compound
folds `min` over its children starting from `Real::MAX`. -/
def ccd_thickness : Shape → ℚ
  | .ball b => b.ccd_thickness
  | .cuboid c => c.ccd_thickness
  | .capsule c => c.radius
  | .segment _ => 0
  | .triangle t => t.ccd_thickness
  | .trimesh _ => 0
  | .polyline _ => 0
  | .halfspace _ => f32MAX
  | .heightfield _ => 0
  | .compound shapes _ => ccd_thickness_fold RealMAX shapes
  | .convexPolyhedron p => p.ccd_thickness
  | .cylinder c => c.ccd_thickness
  | .cone c => c.ccd_thickness
  | .roundCuboid s => s.base_shape.ccd_thickness + s.border_radius
  | .roundTriangle s => s.base_shape.ccd_thickness + s.border_radius
  | .roundCylinder s => s.base_shape.ccd_thickness + s.border_radius
  | .roundCone s => s.base_shape.ccd_thickness + s.border_radius
  | .roundConvexPolyhedron s => s.base_shape.ccd_thickness + s.border_radius

/-- The compound's `fold(Real::MAX, |curr, (_, s)| curr.min(s.ccd_thickness()))`. -/
def ccd_thickness_fold : ℚ → List (Isometry × Shape) → ℚ
  | curr, [] => curr
  | curr, (_, s) :: rest => ccd_thickness_fold (min curr (ccd_thickness s)) rest

end

/-- `Shape::as_support_map`: defaults to `None`; overridden with `Some`
by exactly the variants whose source `impl` block overrides it (the value
of the view itself is external, modelled as `Unit`). -/
def as_support_map : Shape → Option Unit
  | .ball _ => some ()
  | .cuboid _ => some ()
  | .capsule _ => some ()
  | .segment _ => some ()
  | .triangle _ => some ()
  | .trimesh _ => none
  | .polyline _ => none
  | .halfspace _ => none
  | .heightfield _ => none
  | .compound _ _ => none
  | .convexPolyhedron _ => some ()
  | .cylinder _ => some ()
  | .cone _ => some ()
  | .roundCuboid _ => some ()
  | .roundTriangle _ => some ()
  | .roundCylinder _ => some ()
  | .roundCone _ => some ()
  | .roundConvexPolyhedron _ => some ()

/-! ### Downcast-safe type erasure (`impl_downcast! / as_shape::<T>`) -/

/-- The concrete Rust types a `dyn Shape` can be downcast to; the runtime
type identity (`TypeId`) used by `downcast_ref`. -/
inductive CType
  | ball
  | cuboid
  | capsule
  | segment
  | triangle
  | trimesh
  | polyline
  | halfspace
  | heightfield
  | compound
  | convexPolyhedron
  | cylinder
  | cone
  | roundCuboid
  | roundTriangle
  | roundCylinder
  | roundCone
  | roundConvexPolyhedron
deriving DecidableEq, Repr

/-- The Lean type carried by each concrete Rust type. -/
def CType.carrier : CType → Type
  | .ball => Ball
  | .cuboid => Cuboid
  | .capsule => Capsule
  | .segment => Segment
  | .triangle => Triangle
  | .trimesh => TriMesh
  | .polyline => Polyline
  | .halfspace => HalfSpace
  | .heightfield => HeightField
  | .compound => List (Isometry × Shape) × AABB
  | .convexPolyhedron => ConvexPolyhedron
  | .cylinder => Cylinder
  | .cone => Cone
  | .roundCuboid => RoundShape Cuboid
  | .roundTriangle => RoundShape Triangle
  | .roundCylinder => RoundShape Cylinder
  | .roundCone => RoundShape Cone
  | .roundConvexPolyhedron => RoundShape ConvexPolyhedron

/-- The actual runtime type of the value held in a `dyn Shape`. -/
def ctypeOf : Shape → CType
  | .ball _ => .ball
  | .cuboid _ => .cuboid
  | .capsule _ => .capsule
  | .segment _ => .segment
  | .triangle _ => .triangle
  | .trimesh _ => .trimesh
  | .polyline _ => .polyline
  | .halfspace _ => .halfspace
  | .heightfield _ => .heightfield
  | .compound _ _ => .compound
  | .convexPolyhedron _ => .convexPolyhedron
  | .cylinder _ => .cylinder
  | .cone _ => .cone
  | .roundCuboid _ => .roundCuboid
  | .roundTriangle _ => .roundTriangle
  | .roundCylinder _ => .roundCylinder
  | .roundCone _ => .roundCone
  | .roundConvexPolyhedron _ => .roundConvexPolyhedron

/-- `<dyn Shape>::as_shape::<T>` (via `downcast_ref`): a reference to the
concrete value exactly when the runtime type is `T`, else `None`. -/
def as_shape : (t : CType) → Shape → Option t.carrier
  | .ball, .ball b => some b
  | .cuboid, .cuboid c => some c
  | .capsule, .capsule c => some c
  | .segment, .segment s => some s
  | .triangle, .triangle t => some t
  | .trimesh, .trimesh m => some m
  | .polyline, .polyline p => some p
  | .halfspace, .halfspace h => some h
  | .heightfield, .heightfield h => some h
  | .compound, .compound l la => some (l, la)
  | .convexPolyhedron, .convexPolyhedron p => some p
  | .cylinder, .cylinder c => some c
  | .cone, .cone c => some c
  | .roundCuboid, .roundCuboid s => some s
  | .roundTriangle, .roundTriangle s => some s
  | .roundCylinder, .roundCylinder s => some s
  | .roundCone, .roundCone s => some s
  | .roundConvexPolyhedron, .roundConvexPolyhedron s => some s
  | _, _ => none

/-- `<dyn Shape>::as_ball`, a thin alias over the generic downcast. -/
def as_ball (s : Shape) : Option Ball := as_shape CType.ball s

/-- `<dyn Shape>::as_cuboid`. -/
def as_cuboid (s : Shape) : Option Cuboid := as_shape CType.cuboid s

/-- `<dyn Shape>::as_capsule`. -/
def as_capsule (s : Shape) : Option Capsule := as_shape CType.capsule s

/-- `<dyn Shape>::as_triangle`. -/
def as_triangle (s : Shape) : Option Triangle := as_shape CType.triangle s

/-- `<dyn Shape>::as_compound`. -/
def as_compound (s : Shape) : Option (List (Isometry × Shape) × AABB) :=
  as_shape CType.compound s

/-- `<dyn Shape>::as_trimesh`. -/
def as_trimesh (s : Shape) : Option TriMesh := as_shape CType.trimesh s

/-- `<dyn Shape>::as_polyline`. -/
def as_polyline (s : Shape) : Option Polyline := as_shape CType.polyline s

/-- `<dyn Shape>::as_heightfield`. -/
def as_heightfield (s : Shape) : Option HeightField :=
  as_shape CType.heightfield s

/-- `<dyn Shape>::as_round_cuboid`. -/
def as_round_cuboid (s : Shape) : Option (RoundShape Cuboid) :=
  as_shape CType.roundCuboid s

/-- `<dyn Shape>::as_round_triangle`. -/
def as_round_triangle (s : Shape) : Option (RoundShape Triangle) :=
  as_shape CType.roundTriangle s

/-- `<dyn Shape>::as_convex_polyhedron`. -/
def as_convex_polyhedron (s : Shape) : Option ConvexPolyhedron :=
  as_shape CType.convexPolyhedron s

/-- `<dyn Shape>::as_cylinder`. -/
def as_cylinder (s : Shape) : Option Cylinder := as_shape CType.cylinder s

/-- `<dyn Shape>::as_cone`. -/
def as_cone (s : Shape) : Option Cone := as_shape CType.cone s

/-- `<dyn Shape>::as_round_cylinder`. -/
def as_round_cylinder (s : Shape) : Option (RoundShape Cylinder) :=
  as_shape CType.roundCylinder s

/-- `<dyn Shape>::as_round_cone`. -/
def as_round_cone (s : Shape) : Option (RoundShape Cone) :=
  as_shape CType.roundCone s

/-- `<dyn Shape>::as_round_convex_polyhedron`. -/
def as_round_convex_polyhedron (s : Shape) : Option (RoundShape ConvexPolyhedron) :=
  as_shape CType.roundConvexPolyhedron s

/-! ### Claim theorems for the shape interface -/

/-- C1: the generic downcast `as_shape::<T>` succeeds exactly when the
value's runtime type is `T`; `as_ball` on a ball returns the original
value, `as_ball` on a cuboid returns `None`, and downcasting a
`RoundShape<Cuboid>` requires requesting `RoundShape<Cuboid>`, not
`Cuboid`. -/
theorem c1_downcast_type_identity :
    (∀ (t : CType) (s : Shape), (as_shape t s).isSome = true ↔ ctypeOf s = t)
    ∧ (∀ b : Ball, as_ball (Shape.ball b) = some b)
    ∧ (∀ c : Cuboid, as_ball (Shape.cuboid c) = none)
    ∧ (∀ s : RoundShape Cuboid, as_cuboid (Shape.roundCuboid s) = none)
    ∧ (∀ s : RoundShape Cuboid,
        as_round_cuboid (Shape.roundCuboid s) = some s) := by
  refine ⟨?_, fun _ => rfl, fun _ => rfl, fun _ => rfl, fun _ => rfl⟩
  intro t s
  cases t <;> cases s <;> simp [as_shape, ctypeOf]

/-- C2: every rounded shape derives its quantities from its base —
`ccd_thickness` is the base's plus the border radius, `is_convex` is the
base's, and the local AABB is the base's loosened by the border radius,
for each of the five roundable bases of the 3-D build. -/
theorem c2_round_shape_derived_quantities :
    (∀ s : RoundShape Cuboid,
      ccd_thickness (Shape.roundCuboid s)
          = ccd_thickness (Shape.cuboid s.base_shape) + s.border_radius
      ∧ is_convex (Shape.roundCuboid s) = is_convex (Shape.cuboid s.base_shape)
      ∧ compute_local_aabb (Shape.roundCuboid s)
          = (compute_local_aabb (Shape.cuboid s.base_shape)).loosened
              s.border_radius)
    ∧ (∀ s : RoundShape Triangle,
      ccd_thickness (Shape.roundTriangle s)
          = ccd_thickness (Shape.triangle s.base_shape) + s.border_radius
      ∧ is_convex (Shape.roundTriangle s) = is_convex (Shape.triangle s.base_shape)
      ∧ compute_local_aabb (Shape.roundTriangle s)
          = (compute_local_aabb (Shape.triangle s.base_shape)).loosened
              s.border_radius)
    ∧ (∀ s : RoundShape Cylinder,
      ccd_thickness (Shape.roundCylinder s)
          = ccd_thickness (Shape.cylinder s.base_shape) + s.border_radius
      ∧ is_convex (Shape.roundCylinder s) = is_convex (Shape.cylinder s.base_shape)
      ∧ compute_local_aabb (Shape.roundCylinder s)
          = (compute_local_aabb (Shape.cylinder s.base_shape)).loosened
              s.border_radius)
    ∧ (∀ s : RoundShape Cone,
      ccd_thickness (Shape.roundCone s)
          = ccd_thickness (Shape.cone s.base_shape) + s.border_radius
      ∧ is_convex (Shape.roundCone s) = is_convex (Shape.cone s.base_shape)
      ∧ compute_local_aabb (Shape.roundCone s)
          = (compute_local_aabb (Shape.cone s.base_shape)).loosened
              s.border_radius)
    ∧ (∀ s : RoundShape ConvexPolyhedron,
      ccd_thickness (Shape.roundConvexPolyhedron s)
          = ccd_thickness (Shape.convexPolyhedron s.base_shape) + s.border_radius
      ∧ is_convex (Shape.roundConvexPolyhedron s)
          = is_convex (Shape.convexPolyhedron s.base_shape)
      ∧ compute_local_aabb (Shape.roundConvexPolyhedron s)
          = (compute_local_aabb (Shape.convexPolyhedron s.base_shape)).loosened
              s.border_radius) := by
  refine ⟨fun s => ⟨?_, rfl, rfl⟩, fun s => ⟨?_, rfl, rfl⟩, fun s => ⟨?_, rfl, rfl⟩,
    fun s => ⟨?_, rfl, rfl⟩, fun s => ⟨?_, rfl, rfl⟩⟩ <;>
    simp [ccd_thickness]

/-- C6: for every shape of every concrete variant (including those that
override `compute_aabb`, such as balls, cuboids and compounds),
`compute_aabb` at the identity transform equals `compute_local_aabb`
(exactly, in the rational model). -/
theorem c6_compute_aabb_identity (s : Shape) :
    compute_aabb s Isometry.identity = compute_local_aabb s := by
  have hiso : ∀ p : Vec3, Isometry.identity.apply p = p := Isometry.identity_apply
  have hmap : ∀ l : List Vec3, l.map Isometry.identity.apply = l := by
    intro l
    have hfun : Isometry.identity.apply = id := funext Isometry.identity_apply
    rw [hfun, List.map_id]
  cases s with
  | ball b =>
    rcases b with ⟨r⟩
    simp [compute_aabb, compute_local_aabb, Ball.aabb, Ball.local_aabb, hiso,
      Vec3.sub, Vec3.add, Vec3.neg, Vec3.cst, Vec3.zero]
  | cuboid c =>
    simp [compute_aabb, compute_local_aabb, Cuboid.aabb, AABB.transform_by_identity]
  | capsule c =>
    simp [compute_aabb, compute_local_aabb, Capsule.aabb, Capsule.local_aabb,
      Segment.aabb, Segment.local_aabb, hiso]
  | segment s =>
    simp [compute_aabb, compute_local_aabb, Segment.aabb, Segment.local_aabb, hiso]
  | triangle t =>
    simp [compute_aabb, compute_local_aabb, Triangle.aabb, Triangle.local_aabb, hiso]
  | trimesh m =>
    simp [compute_aabb, compute_local_aabb, AABB.transform_by_identity]
  | polyline p =>
    simp [compute_aabb, compute_local_aabb, AABB.transform_by_identity]
  | halfspace h =>
    simp [compute_aabb, compute_local_aabb, HalfSpace.aabb]
  | heightfield h =>
    simp [compute_aabb, compute_local_aabb, AABB.transform_by_identity]
  | compound l la =>
    simp [compute_aabb, compute_local_aabb, AABB.transform_by_identity]
  | convexPolyhedron p =>
    simp [compute_aabb, compute_local_aabb, ConvexPolyhedron.aabb,
      ConvexPolyhedron.local_aabb, hmap]
  | cylinder c =>
    simp [compute_aabb, compute_local_aabb, Cylinder.aabb, AABB.transform_by_identity]
  | cone c =>
    simp [compute_aabb, compute_local_aabb, Cone.aabb, AABB.transform_by_identity]
  | roundCuboid s =>
    simp [compute_aabb, compute_local_aabb, Cuboid.aabb, AABB.transform_by_identity]
  | roundTriangle s =>
    simp [compute_aabb, compute_local_aabb, Triangle.aabb, Triangle.local_aabb, hiso]
  | roundCylinder s =>
    simp [compute_aabb, compute_local_aabb, Cylinder.aabb, AABB.transform_by_identity]
  | roundCone s =>
    simp [compute_aabb, compute_local_aabb, Cone.aabb, AABB.transform_by_identity]
  | roundConvexPolyhedron s =>
    simp [compute_aabb, compute_local_aabb, ConvexPolyhedron.aabb,
      ConvexPolyhedron.local_aabb, hmap]

/-- C7 (amended): `as_support_map` returns `Some` exactly on the convex
primitives that implement the support-map capability — ball, cuboid,
capsule, segment, triangle, convex polyhedron, cylinder, cone, and the
rounded variants — and `None` on every other shape, **including the
half-space**, whose `impl` does not override the default. -/
theorem c7_as_support_map_support (s : Shape) :
    (as_support_map s).isSome = true
      ↔ shape_type s ∈ ([.Ball, .Cuboid, .Capsule, .Segment, .Triangle,
          .ConvexPolyhedron, .Cylinder, .Cone, .RoundCuboid, .RoundTriangle,
          .RoundCylinder, .RoundCone, .RoundConvexPolyhedron] : List ShapeType) := by
  cases s <;> simp [as_support_map, shape_type]

/-- C7 counterexample to the claim as stated: the half-space is a convex
primitive (`is_convex` is `true`) yet `as_support_map` returns `None` on
it, contradicting "includes ... half-space". -/
theorem c7_counterexample :
    as_support_map (Shape.halfspace ⟨⟨1, 0, 0⟩⟩) = none
    ∧ is_convex (Shape.halfspace ⟨⟨1, 0, 0⟩⟩) = true :=
  ⟨rfl, rfl⟩

/-- C8: `HalfSpace::ccd_thickness` returns the maximum representable
value of the scalar type `Real` (the half-space's thickness is treated as
unbounded); in the source this is written `f32::MAX as Real`, which
coincides with `Real::MAX` in the single-precision build modelled here. -/
theorem c8_halfspace_ccd_thickness (h : HalfSpace) :
    ccd_thickness (Shape.halfspace h) = RealMAX := by
  simp [ccd_thickness, RealMAX]

/-- C9: a rounded shape's mass properties are exactly its base shape's at
every density — the border radius contributes no mass, center-of-mass
shift, or inertia — for each of the five roundable bases. -/
theorem c9_round_shape_mass_properties :
    (∀ (s : RoundShape Cuboid) (density : ℚ),
      mass_properties (Shape.roundCuboid s) density
        = mass_properties (Shape.cuboid s.base_shape) density)
    ∧ (∀ (s : RoundShape Triangle) (density : ℚ),
      mass_properties (Shape.roundTriangle s) density
        = mass_properties (Shape.triangle s.base_shape) density)
    ∧ (∀ (s : RoundShape Cylinder) (density : ℚ),
      mass_properties (Shape.roundCylinder s) density
        = mass_properties (Shape.cylinder s.base_shape) density)
    ∧ (∀ (s : RoundShape Cone) (density : ℚ),
      mass_properties (Shape.roundCone s) density
        = mass_properties (Shape.cone s.base_shape) density)
    ∧ (∀ (s : RoundShape ConvexPolyhedron) (density : ℚ),
      mass_properties (Shape.roundConvexPolyhedron s) density
        = mass_properties (Shape.convexPolyhedron s.base_shape) density) :=
  ⟨fun _ _ => rfl, fun _ _ => rfl, fun _ _ => rfl, fun _ _ => rfl, fun _ _ => rfl⟩

/-! ## `normalize` (`convex_hull_utils.rs`, over the exact reals)

The diagonal is a Euclidean distance, so this routine is modelled over
`ℝ` (the rest of the file stays in `ℚ`, where every step is decidable). -/

/-- A 3-dimensional vector over the reals, for the normalisation routine. -/
structure Vec3R where
  x : ℝ
  y : ℝ
  z : ℝ

namespace Vec3R

/-- Componentwise addition. -/
noncomputable def add (v w : Vec3R) : Vec3R := ⟨v.x + w.x, v.y + w.y, v.z + w.z⟩

/-- Componentwise subtraction. -/
noncomputable def sub (v w : Vec3R) : Vec3R := ⟨v.x - w.x, v.y - w.y, v.z - w.z⟩

/-- Scalar multiplication. -/
noncomputable def smul (a : ℝ) (v : Vec3R) : Vec3R := ⟨a * v.x, a * v.y, a * v.z⟩

/-- Division of every component by a scalar. -/
noncomputable def sdiv (v : Vec3R) (a : ℝ) : Vec3R := ⟨v.x / a, v.y / a, v.z / a⟩

/-- Componentwise minimum. -/
noncomputable def cmin (v w : Vec3R) : Vec3R :=
  ⟨min v.x w.x, min v.y w.y, min v.z w.z⟩

/-- Componentwise maximum. -/
noncomputable def cmax (v w : Vec3R) : Vec3R :=
  ⟨max v.x w.x, max v.y w.y, max v.z w.z⟩

end Vec3R

/-- Componentwise order on real vectors. -/
def leR (v w : Vec3R) : Prop := v.x ≤ w.x ∧ v.y ≤ w.y ∧ v.z ≤ w.z

/-- Modelled from the spec: the bounding-volume collaborator's point-cloud
AABB (componentwise min/max fold), over the reals; returns the
`(mins, maxs)` pair. -/
noncomputable def local_point_cloud_aabb_r : List Vec3R → Vec3R × Vec3R
  | [] => (⟨0, 0, 0⟩, ⟨0, 0, 0⟩)
  | p :: ps => (ps.foldl Vec3R.cmin p, ps.foldl Vec3R.cmax p)

/-- `na::distance`: the Euclidean distance between two points. -/
noncomputable def dist_r (v w : Vec3R) : ℝ :=
  Real.sqrt ((w.x - v.x) ^ 2 + (w.y - v.y) ^ 2 + (w.z - v.z) ^ 2)

/-- The center of the AABB with corners `v` and `w`. -/
noncomputable def center_r (v w : Vec3R) : Vec3R :=
  ⟨(v.x + w.x) / 2, (v.y + w.y) / 2, (v.z + w.z) / 2⟩

/-- `normalize`: translate every point by `-center` and scale by
`1/diagonal` in place, returning the rescaled cloud together with
`(center, diagonal)` of the cloud's AABB. -/
noncomputable def normalize (coords : List Vec3R) : List Vec3R × (Vec3R × ℝ) :=
  (coords.map (fun c =>
      Vec3R.sdiv
        (Vec3R.sub c (center_r (local_point_cloud_aabb_r coords).1
          (local_point_cloud_aabb_r coords).2))
        (dist_r (local_point_cloud_aabb_r coords).1
          (local_point_cloud_aabb_r coords).2)),
   (center_r (local_point_cloud_aabb_r coords).1
      (local_point_cloud_aabb_r coords).2,
    dist_r (local_point_cloud_aabb_r coords).1
      (local_point_cloud_aabb_r coords).2))

theorem foldl_cmin_le (ps : List Vec3R) :
    ∀ p, leR (ps.foldl Vec3R.cmin p) p := by
  induction ps with
  | nil => intro p; exact ⟨le_refl _, le_refl _, le_refl _⟩
  | cons r rs ih =>
    intro p
    have h1 := ih (Vec3R.cmin p r)
    have h2 : leR (Vec3R.cmin p r) p :=
      ⟨min_le_left _ _, min_le_left _ _, min_le_left _ _⟩
    exact ⟨le_trans h1.1 h2.1, le_trans h1.2.1 h2.2.1, le_trans h1.2.2 h2.2.2⟩

theorem foldl_cmin_le_mem (ps : List Vec3R) :
    ∀ p q, q ∈ ps → leR (ps.foldl Vec3R.cmin p) q := by
  induction ps with
  | nil => intro p q h; simp at h
  | cons r rs ih =>
    intro p q hq
    rcases List.mem_cons.mp hq with h | h
    · subst h
      have h1 := foldl_cmin_le rs (Vec3R.cmin p q)
      have h2 : leR (Vec3R.cmin p q) q :=
        ⟨min_le_right _ _, min_le_right _ _, min_le_right _ _⟩
      exact ⟨le_trans h1.1 h2.1, le_trans h1.2.1 h2.2.1, le_trans h1.2.2 h2.2.2⟩
    · exact ih (Vec3R.cmin p r) q h

theorem le_foldl_cmax (ps : List Vec3R) :
    ∀ p, leR p (ps.foldl Vec3R.cmax p) := by
  induction ps with
  | nil => intro p; exact ⟨le_refl _, le_refl _, le_refl _⟩
  | cons r rs ih =>
    intro p
    have h1 := ih (Vec3R.cmax p r)
    have h2 : leR p (Vec3R.cmax p r) :=
      ⟨le_max_left _ _, le_max_left _ _, le_max_left _ _⟩
    exact ⟨le_trans h2.1 h1.1, le_trans h2.2.1 h1.2.1, le_trans h2.2.2 h1.2.2⟩

theorem mem_le_foldl_cmax (ps : List Vec3R) :
    ∀ p q, q ∈ ps → leR q (ps.foldl Vec3R.cmax p) := by
  induction ps with
  | nil => intro p q h; simp at h
  | cons r rs ih =>
    intro p q hq
    rcases List.mem_cons.mp hq with h | h
    · subst h
      have h1 := le_foldl_cmax rs (Vec3R.cmax p q)
      have h2 : leR q (Vec3R.cmax p q) :=
        ⟨le_max_right _ _, le_max_right _ _, le_max_right _ _⟩
      exact ⟨le_trans h2.1 h1.1, le_trans h2.2.1 h1.2.1, le_trans h2.2.2 h1.2.2⟩
    · exact ih (Vec3R.cmax p r) q h

theorem cloud_bounds {coords : List Vec3R} (hne : coords ≠ []) {q : Vec3R}
    (hq : q ∈ coords) :
    leR (local_point_cloud_aabb_r coords).1 q
    ∧ leR q (local_point_cloud_aabb_r coords).2 := by
  cases coords with
  | nil => exact absurd rfl hne
  | cons c cs =>
    simp only [local_point_cloud_aabb_r]
    rcases List.mem_cons.mp hq with h | h
    · subst h
      exact ⟨foldl_cmin_le cs q, le_foldl_cmax cs q⟩
    · exact ⟨foldl_cmin_le_mem cs c q h, mem_le_foldl_cmax cs c q h⟩

theorem vec3r_exists_ne_comp {p q : Vec3R} (h : p ≠ q) :
    p.x ≠ q.x ∨ p.y ≠ q.y ∨ p.z ≠ q.z := by
  by_contra hc
  push_neg at hc
  obtain ⟨h1, h2, h3⟩ := hc
  apply h
  cases p
  cases q
  simp_all

theorem cloud_diag_pos {coords : List Vec3R} {p q : Vec3R}
    (hp : p ∈ coords) (hq : q ∈ coords) (hpq : p ≠ q) :
    0 < dist_r (local_point_cloud_aabb_r coords).1
        (local_point_cloud_aabb_r coords).2 := by
  have hne : coords ≠ [] := by
    intro h
    subst h
    simp at hp
  obtain ⟨hminp, hmaxp⟩ := cloud_bounds hne hp
  obtain ⟨hminq, hmaxq⟩ := cloud_bounds hne hq
  unfold dist_r
  apply Real.sqrt_pos.mpr
  rcases vec3r_exists_ne_comp hpq with hc | hc | hc
  · have hx : (local_point_cloud_aabb_r coords).1.x
        < (local_point_cloud_aabb_r coords).2.x := by
      rcases lt_or_gt_of_ne hc with h | h
      · exact lt_of_le_of_lt hminp.1 (lt_of_lt_of_le h hmaxq.1)
      · exact lt_of_le_of_lt hminq.1 (lt_of_lt_of_le h hmaxp.1)
    have h2 := pow_pos (sub_pos.mpr hx) 2
    have h3 := sq_nonneg ((local_point_cloud_aabb_r coords).2.y
      - (local_point_cloud_aabb_r coords).1.y)
    have h4 := sq_nonneg ((local_point_cloud_aabb_r coords).2.z
      - (local_point_cloud_aabb_r coords).1.z)
    linarith
  · have hy : (local_point_cloud_aabb_r coords).1.y
        < (local_point_cloud_aabb_r coords).2.y := by
      rcases lt_or_gt_of_ne hc with h | h
      · exact lt_of_le_of_lt hminp.2.1 (lt_of_lt_of_le h hmaxq.2.1)
      · exact lt_of_le_of_lt hminq.2.1 (lt_of_lt_of_le h hmaxp.2.1)
    have h2 := pow_pos (sub_pos.mpr hy) 2
    have h3 := sq_nonneg ((local_point_cloud_aabb_r coords).2.x
      - (local_point_cloud_aabb_r coords).1.x)
    have h4 := sq_nonneg ((local_point_cloud_aabb_r coords).2.z
      - (local_point_cloud_aabb_r coords).1.z)
    linarith
  · have hz : (local_point_cloud_aabb_r coords).1.z
        < (local_point_cloud_aabb_r coords).2.z := by
      rcases lt_or_gt_of_ne hc with h | h
      · exact lt_of_le_of_lt hminp.2.2 (lt_of_lt_of_le h hmaxq.2.2)
      · exact lt_of_le_of_lt hminq.2.2 (lt_of_lt_of_le h hmaxp.2.2)
    have h2 := pow_pos (sub_pos.mpr hz) 2
    have h3 := sq_nonneg ((local_point_cloud_aabb_r coords).2.x
      - (local_point_cloud_aabb_r coords).1.x)
    have h4 := sq_nonneg ((local_point_cloud_aabb_r coords).2.y
      - (local_point_cloud_aabb_r coords).1.y)
    linarith

/-- C5: on a cloud with at least two distinct points, `normalize` rescales
every point in place to `(point - center) / diagonal`, returns a strictly
positive diagonal together with the center, and the inverse transform
`point * diagonal + center` reconstructs the original cloud exactly (in
the real model; "within floating tolerance" in the float code). -/
theorem c5_normalize_roundtrip (coords : List Vec3R) (p q : Vec3R)
    (hp : p ∈ coords) (hq : q ∈ coords) (hpq : p ≠ q) :
    0 < (normalize coords).2.2
    ∧ (normalize coords).1
        = coords.map (fun c =>
            Vec3R.sdiv (Vec3R.sub c (normalize coords).2.1)
              (normalize coords).2.2)
    ∧ ((normalize coords).1.map (fun c =>
          Vec3R.add (Vec3R.smul (normalize coords).2.2 c)
            (normalize coords).2.1))
        = coords := by
  have hd : 0 < dist_r (local_point_cloud_aabb_r coords).1
      (local_point_cloud_aabb_r coords).2 := cloud_diag_pos hp hq hpq
  have hdne : dist_r (local_point_cloud_aabb_r coords).1
      (local_point_cloud_aabb_r coords).2 ≠ 0 := ne_of_gt hd
  refine ⟨hd, rfl, ?_⟩
  simp only [normalize, List.map_map]
  have hcomp : ∀ c : Vec3R,
      Vec3R.add
        (Vec3R.smul
          (dist_r (local_point_cloud_aabb_r coords).1
            (local_point_cloud_aabb_r coords).2)
          (Vec3R.sdiv
            (Vec3R.sub c (center_r (local_point_cloud_aabb_r coords).1
              (local_point_cloud_aabb_r coords).2))
            (dist_r (local_point_cloud_aabb_r coords).1
              (local_point_cloud_aabb_r coords).2)))
        (center_r (local_point_cloud_aabb_r coords).1
          (local_point_cloud_aabb_r coords).2) = c := by
    intro c
    cases c
    simp only [Vec3R.add, Vec3R.smul, Vec3R.sdiv, Vec3R.sub, Vec3R.mk.injEq]
    refine ⟨?_, ?_, ?_⟩ <;> field_simp
  have hfun : ((fun c =>
      Vec3R.add (Vec3R.smul (dist_r (local_point_cloud_aabb_r coords).1
        (local_point_cloud_aabb_r coords).2) c)
        (center_r (local_point_cloud_aabb_r coords).1
          (local_point_cloud_aabb_r coords).2)) ∘
      (fun c => Vec3R.sdiv
        (Vec3R.sub c (center_r (local_point_cloud_aabb_r coords).1
          (local_point_cloud_aabb_r coords).2))
        (dist_r (local_point_cloud_aabb_r coords).1
          (local_point_cloud_aabb_r coords).2))) = id := by
    funext c
    exact hcomp c
  rw [hfun, List.map_id]

/-- Witness for C5: the theorem applied to the concrete two-point cloud
`[(0,0,0), (1,0,0)]`. -/
theorem c5_witness :
    ((⟨0, 0, 0⟩ : Vec3R) ∈ ([⟨0, 0, 0⟩, ⟨1, 0, 0⟩] : List Vec3R)
      ∧ (⟨1, 0, 0⟩ : Vec3R) ∈ ([⟨0, 0, 0⟩, ⟨1, 0, 0⟩] : List Vec3R)
      ∧ (⟨0, 0, 0⟩ : Vec3R) ≠ (⟨1, 0, 0⟩ : Vec3R))
    ∧ (0 < (normalize [⟨0, 0, 0⟩, ⟨1, 0, 0⟩]).2.2
      ∧ (normalize [⟨0, 0, 0⟩, ⟨1, 0, 0⟩]).1
          = ([⟨0, 0, 0⟩, ⟨1, 0, 0⟩] : List Vec3R).map (fun c =>
              Vec3R.sdiv (Vec3R.sub c (normalize [⟨0, 0, 0⟩, ⟨1, 0, 0⟩]).2.1)
                (normalize [⟨0, 0, 0⟩, ⟨1, 0, 0⟩]).2.2)
      ∧ ((normalize [⟨0, 0, 0⟩, ⟨1, 0, 0⟩]).1.map (fun c =>
            Vec3R.add (Vec3R.smul (normalize [⟨0, 0, 0⟩, ⟨1, 0, 0⟩]).2.2 c)
              (normalize [⟨0, 0, 0⟩, ⟨1, 0, 0⟩]).2.1))
          = [⟨0, 0, 0⟩, ⟨1, 0, 0⟩]) := by
  have hne : (⟨0, 0, 0⟩ : Vec3R) ≠ (⟨1, 0, 0⟩ : Vec3R) := by
    intro h
    have hx := congrArg Vec3R.x h
    simp at hx
  exact ⟨⟨by simp, by simp, hne⟩,
    c5_normalize_roundtrip [⟨0, 0, 0⟩, ⟨1, 0, 0⟩] ⟨0, 0, 0⟩ ⟨1, 0, 0⟩
      (by simp) (by simp) hne⟩

end Parry
